import Mathlib

/-!
Shallow embedding of the Metadata Sidebar component
(`src/components/ContentSidebar/MetadataSidebar.js`).

The component keeps an in-memory list of metadata editors and templates
(`State`), reconciles it on success/failure of metadata API calls
(`onAdd`, `onSave`, `onRemove`, `onModification`, `errorCallback`,
`getMetadataEditorsSuccess`), and derives the displayed UI from the state
(`render`, producing a `ViewModel`).

JavaScript array primitives used by the handlers (`Array.prototype.splice`
with deleteCount 1, `indexOf`, `findIndex`, `find`, `push`, `slice`) are
embedded faithfully, including the `-1` sentinel behaviour of
`indexOf`/`findIndex` and the negative-start clamping of `splice`.
-/

/-- One metadata instance: identity `id` plus its remaining fields
(opaque key/value data). -/
structure MetadataInstance where
  id : String
  fields : List (String × String)
deriving DecidableEq, Repr, Inhabited

/-- A metadata template; identity is an opaque template key. -/
structure MetadataEditorTemplate where
  templateKey : String
deriving DecidableEq, Repr, Inhabited

/-- One metadata editor: `{ instance, template, isDirty }`. -/
structure MetadataEditor where
  «instance» : MetadataInstance
  template : MetadataEditorTemplate
  isDirty : Bool
deriving DecidableEq, Repr, Inhabited

/-- A single JSON-Patch-like operation (`op`, `path`, `value`),
passed through to the API untouched. -/
structure JsonPatchOp where
  op : String
  path : String
  value : String
deriving DecidableEq, Repr, Inhabited

/-- The `ops` payload of a save: an ordered list of patch operations. -/
def JsonPatchData : Type := List JsonPatchOp

/-- `permissions` object of a file: `can_upload` may be absent. -/
structure BoxItemPermission where
  can_upload : Option Bool
deriving DecidableEq, Repr, Inhabited

/-- A file record; `permissions` may be absent. -/
structure BoxItem where
  permissions : Option BoxItemPermission
deriving DecidableEq, Repr, Inhabited

/-- Component state: `editors` and `templates` are `undefined` (`none`)
until the initial list fetch succeeds. -/
structure State where
  editors : Option (List MetadataEditor)
  templates : Option (List MetadataEditorTemplate)
  isLoading : Bool
  hasError : Bool
deriving DecidableEq, Repr

/-- The mount-time state: `{ isLoading: false, hasError: false }`,
`editors` and `templates` undefined. -/
def initialState : State :=
  { editors := none, templates := none, isLoading := false, hasError := false }

/-- JS `Array.prototype.findIndex`: index of the first element satisfying
`p`, or `-1` when none does. -/
def jsFindIndex (p : α → Bool) : List α → Int
  | [] => -1
  | a :: t =>
      if p a then 0
      else
        let r := jsFindIndex p t
        if r < 0 then -1 else r + 1

/-- JS `Array.prototype.indexOf` (strict-equality search): index of the
first occurrence of `x`, or `-1`. -/
def jsIndexOf [BEq α] (l : List α) (x : α) : Int :=
  jsFindIndex (fun y => y == x) l

/-- JS `arr.splice(start, 1)` (as applied to a fresh copy): remove one
element at `start`, clamping negative `start` to `max (length + start) 0`
and large `start` to `length`. -/
def spliceRemove1 (l : List α) (start : Int) : List α :=
  let s : Nat := if start < 0 then (Int.ofNat l.length + start).toNat
                 else min start.toNat l.length
  l.take s ++ l.drop (s + 1)

/-- JS `arr.splice(start, 1, x)` (as applied to a fresh copy): replace one
element at `start` by `x`, with the same clamping as `spliceRemove1`;
when `start` clamps to `length` nothing is deleted and `x` is appended. -/
def spliceReplace1 (l : List α) (start : Int) (x : α) : List α :=
  let s : Nat := if start < 0 then (Int.ofNat l.length + start).toNat
                 else min start.toNat l.length
  l.take s ++ x :: l.drop (s + 1)

/-- `canEdit()`: `const { permissions = {} } = file; return !!can_upload`. -/
def canEdit (file : BoxItem) : Bool :=
  let permissions := file.permissions.getD { can_upload := none }
  permissions.can_upload.getD false

/-- `errorCallback`: `setState({ isLoading: false, hasError: true })`. -/
def errorCallback (s : State) : State :=
  { s with isLoading := false, hasError := true }

/-- Success continuation of `getMetadataEditors`: stores `templates` and a
copy of `editors`, clears `isLoading` and `hasError`. -/
def getMetadataEditorsSuccess (editors : List MetadataEditor)
    (templates : List MetadataEditorTemplate) (s : State) : State :=
  { s with templates := some templates, editors := some editors,
           isLoading := false, hasError := false }

/-- `getEditor(id)`: `editors.find(({ instance }) => instance.id === id)`
with `editors` defaulting to `[]`. -/
def getEditor (id : String) (s : State) : Option MetadataEditor :=
  (s.editors.getD []).find? (fun e => e.«instance».id == id)

/-- Outcome of one metadata API call, as delivered to its continuations. -/
inductive Outcome (α : Type) where
  | success (value : α)
  | failure
deriving DecidableEq, Repr

/-- A request issued to the metadata API facade. -/
inductive Request where
  | createMetadataReq (template : MetadataEditorTemplate)
  | updateMetadataReq (template : MetadataEditorTemplate) (ops : JsonPatchData)
  | deleteMetadataReq (template : MetadataEditorTemplate)

/-- `onRemoveSuccessHandler(editor)`:
`clone.splice(editors.indexOf(editor), 1)` on a copy of `editors`. -/
def onRemoveSuccessHandler (editor : MetadataEditor) (s : State) : State :=
  let editors := s.editors.getD []
  let clone := spliceRemove1 editors (jsIndexOf editors editor)
  { s with editors := some clone }

/-- `onRemove(id)`: resolve the editor via `getEditor`; return early when
absent (no request), otherwise issue `deleteMetadata` and apply the
matching continuation to the outcome. -/
def onRemove (outcome : Outcome Unit) (id : String) (s : State) :
    State × Option Request :=
  match getEditor id s with
  | none => (s, none)
  | some editor =>
      match outcome with
      | .success _ => (onRemoveSuccessHandler editor s,
                       some (.deleteMetadataReq editor.template))
      | .failure => (errorCallback s, some (.deleteMetadataReq editor.template))

/-- `onAddSuccessHandler(editor)`: `clone.push(editor)` on a copy of
`editors`, then `setState({ editors: clone, isLoading: false })`. -/
def onAddSuccessHandler (editor : MetadataEditor) (s : State) : State :=
  let editors := s.editors.getD []
  { s with editors := some (editors ++ [editor]), isLoading := false }

/-- `onAdd(template)`: `setState({ isLoading: true })`, issue
`createMetadata`, then apply the matching continuation to the outcome. -/
def onAdd (outcome : Outcome MetadataEditor) (template : MetadataEditorTemplate)
    (s : State) : State × Option Request :=
  let s1 := { s with isLoading := true }
  match outcome with
  | .success editor => (onAddSuccessHandler editor s1,
                        some (.createMetadataReq template))
  | .failure => (errorCallback s1, some (.createMetadataReq template))

/-- `onSaveSuccessHandler(oldEditor, newEditor)`:
`clone.splice(editors.indexOf(oldEditor), 1, newEditor)` on a copy. -/
def onSaveSuccessHandler (oldEditor newEditor : MetadataEditor) (s : State) :
    State :=
  let editors := s.editors.getD []
  let clone := spliceReplace1 editors (jsIndexOf editors oldEditor) newEditor
  { s with editors := some clone }

/-- `onSave(id, ops)`: resolve `oldEditor` via `getEditor`; return early
when absent (no request), otherwise issue `updateMetadata` and apply the
matching continuation to the outcome. -/
def onSave (outcome : Outcome MetadataEditor) (id : String)
    (ops : JsonPatchData) (s : State) : State × Option Request :=
  match getEditor id s with
  | none => (s, none)
  | some oldEditor =>
      match outcome with
      | .success newEditor => (onSaveSuccessHandler oldEditor newEditor s,
                               some (.updateMetadataReq oldEditor.template ops))
      | .failure => (errorCallback s,
                     some (.updateMetadataReq oldEditor.template ops))

/-- `onModification(id, isDirty)`: `findIndex` by `instance.id`, return
early on `-1`, otherwise copy the editor, set its `isDirty`, and
`clone.splice(index, 1, editor)`. Issues no API request. -/
def onModification (id : String) (isDirty : Bool) (s : State) :
    State × Option Request :=
  let editors := s.editors.getD []
  let index := jsFindIndex (fun e => e.«instance».id == id) editors
  if index == -1 then (s, none)
  else
    let editor := { editors.getD index.toNat default with isDirty := isDirty }
    let clone := spliceReplace1 editors index editor
    ({ s with editors := some clone }, none)

/-- What `render()` displays, as the booleans it computes plus the props
fed to the child components. -/
structure ViewModel where
  showError : Bool
  showLoadingIndicator : Bool
  showTemplateDropdown : Bool
  hasTemplates : Bool
  showEditor : Bool
  showEmptyContent : Bool
  emptyContentCanAdd : Bool
  wrapperIsLoading : Bool
  showInstances : Bool
  displayedEditors : List MetadataEditor
deriving DecidableEq, Repr

/-- `render()`: the View Projector, a pure function of the state and the
file's permission. `showEditor = !!templates && !!editors` (a defined
array is truthy even when empty); `showLoadingIndicator = !hasError &&
!showEditor`; `showTemplateDropdown = showEditor && canEdit`;
`showEmptyContent = showEditor && editors.length === 0`; the `Instances`
list renders when `showEditor` holds and `showEmptyContent` does not. -/
def render (file : BoxItem) (s : State) : ViewModel :=
  let showEditor := s.templates.isSome && s.editors.isSome
  let showLoadingIndicator := !s.hasError && !showEditor
  let canEditFlag := canEdit file
  let showTemplateDropdown := showEditor && canEditFlag
  let showEmptyContent := showEditor && (s.editors.getD []).length == 0
  { showError := s.hasError
    showLoadingIndicator := showLoadingIndicator
    showTemplateDropdown := showTemplateDropdown
    hasTemplates := match s.templates with
      | none => false
      | some ts => ts.length != 0
    showEditor := showEditor
    showEmptyContent := showEmptyContent
    emptyContentCanAdd := canEditFlag
    wrapperIsLoading := s.isLoading
    showInstances := showEditor && !showEmptyContent
    displayedEditors := s.editors.getD [] }

namespace EditorStore

/-- The identity list of an editor list. -/
def idsOf (l : List MetadataEditor) : List String :=
  l.map (fun e => e.«instance».id)

/-- Editor identities are pairwise distinct. -/
def uniqueIds (l : List MetadataEditor) : Prop :=
  (idsOf l).Nodup

instance (l : List MetadataEditor) : Decidable (uniqueIds l) := by
  unfold uniqueIds; infer_instance

/-- Store operation `insert` (the add-success reconciliation): append. -/
def insert (editor : MetadataEditor) (l : List MetadataEditor) :
    List MetadataEditor :=
  l ++ [editor]

/-- Store operation `removeById` (the remove path with a succeeding API
call): resolve by `instance.id` with `find`, abort when absent, else
`splice(indexOf(editor), 1)`. -/
def removeById (id : String) (l : List MetadataEditor) :
    List MetadataEditor :=
  match l.find? (fun e => e.«instance».id == id) with
  | none => l
  | some editor => spliceRemove1 l (jsIndexOf l editor)

/-- Store operation `replaceOne` (the save-success reconciliation):
`splice(indexOf(oldEditor), 1, newEditor)`. -/
def replaceOne (oldEditor newEditor : MetadataEditor)
    (l : List MetadataEditor) : List MetadataEditor :=
  spliceReplace1 l (jsIndexOf l oldEditor) newEditor

/-- One reconciliation operation on the editor list. -/
inductive StoreOp where
  | insert (editor : MetadataEditor)
  | removeById (id : String)
  | replaceOne (oldEditor newEditor : MetadataEditor)
deriving DecidableEq, Repr

/-- Apply one reconciliation operation. -/
def applyOp : StoreOp → List MetadataEditor → List MetadataEditor
  | .insert e, l => insert e l
  | .removeById id, l => removeById id l
  | .replaceOne old new, l => replaceOne old new l

/-- Apply a sequence of operations, left to right. -/
def applyOps (ops : List StoreOp) (l : List MetadataEditor) :
    List MetadataEditor :=
  ops.foldl (fun acc op => applyOp op acc) l

/-- The claim's precondition: each inserted editor's id is fresh;
no condition on the other operations. -/
def insertPrecond : StoreOp → List MetadataEditor → Bool
  | .insert e, l => !(idsOf l).contains e.«instance».id
  | .removeById _, _ => true
  | .replaceOne _ _, _ => true

/-- `insertPrecond` holding at every step of a sequence. -/
def opsWellFormed : List StoreOp → List MetadataEditor → Bool
  | [], _ => true
  | op :: ops, l => insertPrecond op l && opsWellFormed ops (applyOp op l)

/-- Strengthened per-operation precondition: inserts are fresh, and each
`replaceOne old new` has `old` present with `new`'s id equal to `old`'s
or fresh. -/
def opOk : StoreOp → List MetadataEditor → Bool
  | .insert e, l => !(idsOf l).contains e.«instance».id
  | .removeById _, _ => true
  | .replaceOne old new, l =>
      l.contains old &&
        (new.«instance».id == old.«instance».id ||
          !(idsOf l).contains new.«instance».id)

/-- `opOk` holding at every step of a sequence. -/
def opsOk : List StoreOp → List MetadataEditor → Bool
  | [], _ => true
  | op :: ops, l => opOk op l && opsOk ops (applyOp op l)

end EditorStore

/-! ### Properties of the embedded JS array primitives -/

/-- Unfolding equation for `jsFindIndex` on a cons cell. -/
theorem jsFindIndex_cons (p : α → Bool) (a : α) (t : List α) :
    jsFindIndex p (a :: t) =
      if p a then 0
      else if jsFindIndex p t < 0 then -1 else jsFindIndex p t + 1 := rfl

/-- Full characterization of `jsFindIndex`: either `-1` with no element
satisfying `p`, or the first index at which `p` holds. -/
theorem jsFindIndex_cases (p : α → Bool) (l : List α) :
    (jsFindIndex p l = -1 ∧ ∀ a ∈ l, p a = false) ∨
    (∃ i, ∃ hi : i < l.length, jsFindIndex p l = (i : Int) ∧
      p (l.get ⟨i, hi⟩) = true ∧
      ∀ j, ∀ hj : j < l.length, j < i → p (l.get ⟨j, hj⟩) = false) := by
  induction l with
  | nil => exact Or.inl ⟨rfl, by simp⟩
  | cons a t ih =>
    by_cases h : p a = true
    · refine Or.inr ⟨0, by simp, ?_, by simpa using h, ?_⟩
      · rw [jsFindIndex_cons, if_pos h]
        rfl
      · intro j hj hj0; omega
    · have h' : p a = false := by simpa using h
      rcases ih with ⟨hneg, hall⟩ | ⟨i, hi, heq, hp, hmin⟩
      · refine Or.inl ⟨?_, ?_⟩
        · rw [jsFindIndex_cons, if_neg h, hneg]
          rfl
        · intro x hx
          rcases List.mem_cons.mp hx with rfl | hx
          · exact h'
          · exact hall x hx
      · refine Or.inr ⟨i + 1, by simpa using Nat.succ_lt_succ hi, ?_, ?_, ?_⟩
        · rw [jsFindIndex_cons, if_neg h, heq, if_neg (by omega)]
          omega
        · simpa [List.get_cons_succ] using hp
        · intro j hj hjlt
          match j, hj with
          | 0, _ => exact h'
          | k + 1, hj =>
            have hk : k < t.length := by simpa using Nat.lt_of_succ_lt_succ hj
            have := hmin k hk (by omega)
            simpa [List.get_cons_succ] using this

/-- `jsFindIndex` returns the first index at which `p` holds. -/
theorem jsFindIndex_eq_coe (p : α → Bool) (l : List α) (i : Nat)
    (hi : i < l.length) (hp : p (l.get ⟨i, hi⟩) = true)
    (hmin : ∀ j, ∀ hj : j < l.length, j < i → p (l.get ⟨j, hj⟩) = false) :
    jsFindIndex p l = (i : Int) := by
  rcases jsFindIndex_cases p l with ⟨_, hall⟩ | ⟨i', hi', heq, hp', hmin'⟩
  · have h1 := hall (l.get ⟨i, hi⟩) (List.get_mem l i hi)
    rw [hp] at h1
    simp at h1
  · have hii : i = i' := by
      rcases Nat.lt_trichotomy i i' with hlt | heqq | hgt
      · have h1 := hmin' i hi hlt
        rw [hp] at h1
        simp at h1
      · exact heqq
      · have h1 := hmin i' hi' hgt
        rw [hp'] at h1
        simp at h1
    exact hii ▸ heq

/-- `jsIndexOf` on a present element: its value is the first index holding
the element, and that index is in range. -/
theorem jsIndexOf_mem [BEq α] [LawfulBEq α] (l : List α) (e : α) (he : e ∈ l) :
    ∃ i, ∃ hi : i < l.length, jsIndexOf l e = (i : Int) ∧ l.get ⟨i, hi⟩ = e ∧
      ∀ j, ∀ hj : j < l.length, j < i → l.get ⟨j, hj⟩ ≠ e := by
  rcases jsFindIndex_cases (fun y => y == e) l with ⟨_, hall⟩ | ⟨i, hi, heq, hp, hmin⟩
  · exact absurd (hall e he) (by simp)
  · refine ⟨i, hi, heq, beq_iff_eq.mp hp, ?_⟩
    intro j hj hlt hget
    have := hmin j hj hlt
    rw [hget] at this
    simp at this

/-- `jsIndexOf` computed from a first-occurrence description. -/
theorem jsIndexOf_eq_of_first [BEq α] [LawfulBEq α] (l : List α) (e : α)
    (i : Nat) (hi : i < l.length) (hget : l.get ⟨i, hi⟩ = e)
    (hmin : ∀ j, ∀ hj : j < l.length, j < i → l.get ⟨j, hj⟩ ≠ e) :
    jsIndexOf l e = (i : Int) := by
  refine jsFindIndex_eq_coe _ l i hi ?_ ?_
  · show (l.get ⟨i, hi⟩ == e) = true
    rw [hget]
    exact beq_self_eq_true e
  · intro j hj hlt
    exact beq_eq_false_iff_ne.mpr (hmin j hj hlt)

/-- `splice(i, 1)` at an in-range nonnegative index drops that element. -/
theorem spliceRemove1_coe (l : List α) (i : Nat) (hi : i < l.length) :
    spliceRemove1 l (i : Int) = l.take i ++ l.drop (i + 1) := by
  have h1 : ¬ ((i : Int) < 0) := by omega
  have h2 : ((i : Int)).toNat = i := by omega
  simp [spliceRemove1, h1, h2, Nat.min_eq_left (Nat.le_of_lt hi)]

/-- `splice(i, 1, x)` at an in-range nonnegative index replaces in place. -/
theorem spliceReplace1_coe (l : List α) (i : Nat) (hi : i < l.length) (x : α) :
    spliceReplace1 l (i : Int) x = l.take i ++ x :: l.drop (i + 1) := by
  have h1 : ¬ ((i : Int) < 0) := by omega
  have h2 : ((i : Int)).toNat = i := by omega
  simp [spliceReplace1, h1, h2, Nat.min_eq_left (Nat.le_of_lt hi)]

/-- `splice(i, 1, x)` at an in-range index is `List.set`. -/
theorem spliceReplace1_eq_set (l : List α) (i : Nat) (hi : i < l.length)
    (x : α) : spliceReplace1 l (i : Int) x = l.set i x := by
  rw [spliceReplace1_coe l i hi, List.set_eq_take_append_cons_drop, if_pos hi]

/-- `find?` returns the element at the first index satisfying `p`. -/
theorem find?_first (p : α → Bool) (l : List α) (e : α)
    (hf : l.find? p = some e) :
    ∃ i, ∃ hi : i < l.length, l.get ⟨i, hi⟩ = e ∧
      ∀ j, ∀ hj : j < l.length, j < i → p (l.get ⟨j, hj⟩) = false := by
  induction l with
  | nil => simp [List.find?] at hf
  | cons a t ih =>
    by_cases h : p a = true
    · rw [List.find?_cons_of_pos t h] at hf
      refine ⟨0, by simp, by simpa using Option.some.inj hf, ?_⟩
      intro j hj hj0; omega
    · rw [List.find?_cons_of_neg t h] at hf
      obtain ⟨i, hi, hget, hmin⟩ := ih hf
      refine ⟨i + 1, by simpa using Nat.succ_lt_succ hi, by
        simpa [List.get_cons_succ] using hget, ?_⟩
      intro j hj hjlt
      match j, hj with
      | 0, _ => simpa using h
      | k + 1, hj =>
        have hk : k < t.length := by simpa using Nat.lt_of_succ_lt_succ hj
        have := hmin k hk (by omega)
        simpa [List.get_cons_succ] using this

/-- `eraseP` at a first-match index drops exactly that element. -/
theorem eraseP_eq_take_drop (p : α → Bool) (l : List α) (i : Nat)
    (hi : i < l.length) (hp : p (l.get ⟨i, hi⟩) = true)
    (hmin : ∀ j, ∀ hj : j < l.length, j < i → p (l.get ⟨j, hj⟩) = false) :
    l.eraseP p = l.take i ++ l.drop (i + 1) := by
  induction l generalizing i with
  | nil => simp at hi
  | cons a t ih =>
    match i with
    | 0 =>
      have hpa : p a = true := by simpa using hp
      rw [List.eraseP_cons_of_pos hpa]
      simp
    | k + 1 =>
      have hpa : p a = false := by simpa using hmin 0 (by simp) (by omega)
      rw [List.eraseP_cons_of_neg (by simp [hpa])]
      have hk : k < t.length := by simpa using Nat.lt_of_succ_lt_succ hi
      have hpk : p (t.get ⟨k, hk⟩) = true := by
        simpa [List.get_cons_succ] using hp
      have hmink : ∀ j, ∀ hj : j < t.length, j < k → p (t.get ⟨j, hj⟩) = false := by
        intro j hj hjlt
        have := hmin (j + 1) (by simpa using Nat.succ_lt_succ hj) (by omega)
        simpa [List.get_cons_succ] using this
      rw [ih k hk hpk hmink, List.take_succ_cons, List.drop_succ_cons]
      rfl

/-- The remove path (`getEditor` then `splice(indexOf, 1)`) removes the
first editor whose `instance.id` matches, and nothing when none does. -/
theorem removeById_eq_eraseP (id : String) (l : List MetadataEditor) :
    EditorStore.removeById id l =
      l.eraseP (fun e => e.«instance».id == id) := by
  unfold EditorStore.removeById
  cases hf : l.find? (fun e => e.«instance».id == id) with
  | none =>
    have hall := List.find?_eq_none.mp hf
    rw [List.eraseP_of_forall_not (fun a ha => hall a ha)]
  | some e =>
    have hp : (e.«instance».id == id) = true := by
      simpa using List.find?_some hf
    obtain ⟨i, hi, hget, hmin⟩ := find?_first _ l e hf
    have hminne : ∀ j, ∀ hj : j < l.length, j < i → l.get ⟨j, hj⟩ ≠ e := by
      intro j hj hlt hgetj
      have := hmin j hj hlt
      rw [hgetj, hp] at this
      simp at this
    show spliceRemove1 l (jsIndexOf l e) = _
    rw [jsIndexOf_eq_of_first l e i hi hget hminne, spliceRemove1_coe l i hi,
      eraseP_eq_take_drop _ l i hi (by rw [hget]; exact hp) hmin]

/-- Setting an index to the value already there changes nothing. -/
theorem set_get_self (xs : List α) (i : Nat) (hi : i < xs.length) :
    xs.set i (xs.get ⟨i, hi⟩) = xs := by
  induction xs generalizing i with
  | nil => simp at hi
  | cons a t ih =>
    match i with
    | 0 => rfl
    | k + 1 =>
      have hk : k < t.length := by simpa using Nat.lt_of_succ_lt_succ hi
      rw [List.set_cons_succ, List.get_cons_succ, ih k hk]

/-- Overwriting one entry with a value not occurring in the list keeps the
list duplicate-free. -/
theorem nodup_set_of_not_mem (xs : List α) (i : Nat) (y : α)
    (hnd : xs.Nodup) (hy : y ∉ xs) : (xs.set i y).Nodup := by
  induction xs generalizing i with
  | nil => simp
  | cons a t ih =>
    match i with
    | 0 =>
      rw [List.set_cons_zero]
      rw [List.nodup_cons] at hnd ⊢
      exact ⟨fun h => hy (List.mem_cons_of_mem a h), hnd.2⟩
    | k + 1 =>
      rw [List.set_cons_succ]
      rw [List.nodup_cons] at hnd ⊢
      refine ⟨?_, ih k hnd.2 (fun h => hy (List.mem_cons_of_mem a h))⟩
      intro hmem
      rcases List.mem_or_eq_of_mem_set hmem with h | rfl
      · exact hnd.1 h
      · exact hy (List.mem_cons_self a t)

/-- Overwriting an entry with a value that equals it or is fresh keeps the
list duplicate-free. -/
theorem nodup_set_of (xs : List α) (i : Nat) (hi : i < xs.length) (y : α)
    (hnd : xs.Nodup) (hy : y = xs.get ⟨i, hi⟩ ∨ y ∉ xs) :
    (xs.set i y).Nodup := by
  rcases hy with rfl | hy
  · rw [set_get_self xs i hi]
    exact hnd
  · exact nodup_set_of_not_mem xs i y hnd hy

/-- Under unique identities, erasing the first id-match is the same as
filtering out every id-match. -/
theorem eraseP_idmatch_eq_filter (id : String) (l : List MetadataEditor)
    (h : EditorStore.uniqueIds l) :
    l.eraseP (fun e => e.«instance».id == id) =
      l.filter (fun e => !(e.«instance».id == id)) := by
  induction l with
  | nil => rfl
  | cons a t ih =>
    have h' : a.«instance».id ∉ EditorStore.idsOf t ∧
        (EditorStore.idsOf t).Nodup := by
      simpa [EditorStore.uniqueIds, EditorStore.idsOf, List.nodup_cons] using h
    by_cases hp : (a.«instance».id == id) = true
    · rw [@List.eraseP_cons_of_pos _ a t (fun e => e.«instance».id == id) hp,
        @List.filter_cons_of_neg _ (fun e => !(e.«instance».id == id)) a t
          (by simp [hp])]
      refine (List.filter_eq_self.mpr ?_).symm
      intro e he
      have hne : e.«instance».id ≠ id := by
        intro heq
        apply h'.1
        unfold EditorStore.idsOf
        rw [beq_iff_eq.mp hp, ← heq]
        exact List.mem_map_of_mem (fun x => x.«instance».id) he
      simpa using hne
    · rw [@List.eraseP_cons_of_neg _ a t (fun e => e.«instance».id == id) hp,
        @List.filter_cons_of_pos _ (fun e => !(e.«instance».id == id)) a t
          (by simpa using hp),
        ih (by simpa [EditorStore.uniqueIds, EditorStore.idsOf] using h'.2)]

/-- Boolean non-containment is non-membership. -/
theorem not_contains_iff [BEq α] [LawfulBEq α] (l : List α) (x : α) :
    (!(l.contains x)) = true ↔ x ∉ l := by
  constructor
  · intro h hm
    have hc : l.contains x = true := List.elem_iff.mpr hm
    rw [hc] at h
    simp at h
  · intro hm
    have hc : l.contains x = false := by
      cases hc : l.contains x
      · rfl
      · exact absurd (List.elem_iff.mp hc) hm
    rw [hc]
    rfl

/-- `replaceOne old new` with `old` present overwrites the first
occurrence of `old` in place. -/
theorem replaceOne_mem_eq_set (old new : MetadataEditor)
    (l : List MetadataEditor) (h : old ∈ l) :
    ∃ i, ∃ hi : i < l.length, l.get ⟨i, hi⟩ = old ∧
      (∀ j, ∀ hj : j < l.length, j < i → l.get ⟨j, hj⟩ ≠ old) ∧
      EditorStore.replaceOne old new l = l.set i new := by
  obtain ⟨i, hi, hidx, hget, hmin⟩ := jsIndexOf_mem l old h
  refine ⟨i, hi, hget, hmin, ?_⟩
  unfold EditorStore.replaceOne
  rw [hidx, spliceReplace1_eq_set l i hi]

/-- A single `opOk` reconciliation step keeps identities unique. -/
theorem opOk_preserves (op : EditorStore.StoreOp) (l : List MetadataEditor)
    (hok : EditorStore.opOk op l = true) (hu : EditorStore.uniqueIds l) :
    EditorStore.uniqueIds (EditorStore.applyOp op l) := by
  cases op with
  | insert e =>
    have hfresh : e.«instance».id ∉ EditorStore.idsOf l :=
      (not_contains_iff _ _).mp (by simpa [EditorStore.opOk] using hok)
    show EditorStore.uniqueIds (EditorStore.insert e l)
    unfold EditorStore.uniqueIds EditorStore.idsOf at hu ⊢
    unfold EditorStore.insert
    rw [List.map_append, List.nodup_append]
    refine ⟨hu, by simp, ?_⟩
    intro x hx hx2
    have hxe : x = e.«instance».id := by simpa using hx2
    exact hfresh (by
      unfold EditorStore.idsOf
      exact hxe ▸ hx)
  | removeById id =>
    show EditorStore.uniqueIds (EditorStore.removeById id l)
    unfold EditorStore.uniqueIds EditorStore.idsOf at hu ⊢
    rw [removeById_eq_eraseP]
    exact List.Nodup.sublist (List.Sublist.map _ (List.eraseP_sublist l)) hu
  | replaceOne old new =>
    have hok' : l.contains old = true ∧
        ((new.«instance».id == old.«instance».id) = true ∨
          (!(EditorStore.idsOf l).contains new.«instance».id) = true) := by
      simpa [EditorStore.opOk, Bool.and_eq_true, Bool.or_eq_true] using hok
    have hmem : old ∈ l := List.elem_iff.mp hok'.1
    obtain ⟨i, hi, hget, hmin, heq⟩ := replaceOne_mem_eq_set old new l hmem
    show EditorStore.uniqueIds (EditorStore.replaceOne old new l)
    rw [heq]
    unfold EditorStore.uniqueIds EditorStore.idsOf at hu ⊢
    rw [List.map_set]
    have hlen : i < (List.map (fun e => e.«instance».id) l).length := by
      simpa using hi
    apply nodup_set_of _ i hlen _ hu
    rcases hok'.2 with hsame | hfresh
    · left
      rw [beq_iff_eq.mp hsame, List.get_map, ← hget]
    · right
      exact (not_contains_iff _ _).mp hfresh

/-- Every prefix of an `opsOk` operation sequence keeps identities
unique. -/
theorem opsOk_preserves_take (ops : List EditorStore.StoreOp)
    (l : List MetadataEditor) (hok : EditorStore.opsOk ops l = true)
    (hu : EditorStore.uniqueIds l) :
    ∀ n, EditorStore.uniqueIds (EditorStore.applyOps (ops.take n) l) := by
  induction ops generalizing l with
  | nil =>
    intro n
    simpa [EditorStore.applyOps] using hu
  | cons op ops ih =>
    intro n
    have hok' : EditorStore.opOk op l = true ∧
        EditorStore.opsOk ops (EditorStore.applyOp op l) = true := by
      simpa [EditorStore.opsOk, Bool.and_eq_true] using hok
    match n with
    | 0 => simpa [EditorStore.applyOps] using hu
    | m + 1 =>
      have hu' := opOk_preserves op l hok'.1 hu
      have hm := ih (EditorStore.applyOp op l) hok'.2 hu' m
      simpa [EditorStore.applyOps, List.take_succ_cons, List.foldl_cons] using hm

/-! ### Concrete fixtures used by counterexamples and witnesses -/

/-- A fixed template. -/
def tmplA : MetadataEditorTemplate := { templateKey := "templateA" }

/-- Editor with identity `"1"`. -/
def edOne : MetadataEditor :=
  { «instance» := { id := "1", fields := [] }, template := tmplA,
    isDirty := false }

/-- Editor with identity `"2"`. -/
def edTwo : MetadataEditor :=
  { «instance» := { id := "2", fields := [] }, template := tmplA,
    isDirty := false }

/-- A different editor object that also carries identity `"2"`. -/
def edTwoB : MetadataEditor :=
  { «instance» := { id := "2", fields := [("k", "v")] }, template := tmplA,
    isDirty := false }

/-- `edTwo` with its dirty flag raised. -/
def edTwoDirty : MetadataEditor := { edTwo with isDirty := true }

/-- Editor with identity `"9"`. -/
def edNine : MetadataEditor :=
  { «instance» := { id := "9", fields := [] }, template := tmplA,
    isDirty := false }

/-! ### Claims -/

/-- Claim C1, counterexample: the claim as stated is false. On the store
`[edOne, edTwo]`, whose identities `"1"`, `"2"` are unique, the single
operation sequence `[replaceOne edOne edTwoB]` satisfies the claim's
precondition (it contains no insert, and the claim constrains only
inserts), yet the resulting list `[edTwoB, edTwo]` carries the duplicate
identity `"2"`. -/
theorem C1_counterexample :
    EditorStore.uniqueIds [edOne, edTwo] ∧
    EditorStore.opsWellFormed [EditorStore.StoreOp.replaceOne edOne edTwoB]
      [edOne, edTwo] = true ∧
    ¬ EditorStore.uniqueIds
      (EditorStore.applyOps [EditorStore.StoreOp.replaceOne edOne edTwoB]
        [edOne, edTwo]) := by
  refine ⟨by decide, by decide, by decide⟩

/-- Claim C1 (amended): for every sequence of Editor Store operations
`insert` / `removeById` / `replaceOne` starting from a store with unique
identities, where each `insert`'s editor id is not already present AND
each `replaceOne old new` has `old` present in the current list with
`new`'s id equal to `old`'s id or not present in the current list, the
editor list has unique identities after every step (every prefix of the
sequence). -/
theorem C1_claim (ops : List EditorStore.StoreOp)
    (l : List MetadataEditor) (hok : EditorStore.opsOk ops l = true)
    (hu : EditorStore.uniqueIds l) :
    ∀ n, EditorStore.uniqueIds (EditorStore.applyOps (ops.take n) l) :=
  opsOk_preserves_take ops l hok hu

/-- Claim C1, witness: the amended theorem applied to the concrete
sequence insert `edNine` then remove `"1"` on `[edOne, edTwo]`. -/
theorem C1_witness :
    EditorStore.uniqueIds
      (EditorStore.applyOps
        ([EditorStore.StoreOp.insert edNine,
          EditorStore.StoreOp.removeById "1"].take 2) [edOne, edTwo]) :=
  C1_claim [EditorStore.StoreOp.insert edNine,
    EditorStore.StoreOp.removeById "1"] [edOne, edTwo]
    (by decide) (by decide) 2

/-- Claim C2: `removeById id` removes exactly the editor whose
`instance.id` equals `id` (under unique identities, filtering out the
id-match), and in particular is a no-op leaving the list unchanged when
no editor carries that id. -/
theorem C2_claim (id : String) (l : List MetadataEditor)
    (h : EditorStore.uniqueIds l) :
    EditorStore.removeById id l =
      l.filter (fun e => !(e.«instance».id == id)) := by
  rw [removeById_eq_eraseP, eraseP_idmatch_eq_filter id l h]

/-- Claim C2, witness: on store `[{id:"1"},{id:"2"}]`, `removeById "2"`
yields `[{id:"1"}]`, and a second `removeById "2"` is a no-op. -/
theorem C2_witness :
    EditorStore.uniqueIds [edOne, edTwo] ∧
    EditorStore.removeById "2" [edOne, edTwo] = [edOne] ∧
    EditorStore.removeById "2" [edOne] = [edOne] := by
  refine ⟨by decide, ?_, ?_⟩
  · rw [C2_claim "2" [edOne, edTwo] (by decide)]
    decide
  · rw [C2_claim "2" [edOne] (by decide)]
    decide

/-- Claim C3, counterexample: the claim asserts the add-failure path
leaves `isLoading` stuck true, but `errorCallback` explicitly sets
`isLoading: false`; after a failed add from the mount state the store has
`hasError = true` and `isLoading = false`, not `true`. -/
theorem C3_counterexample :
    (onAdd Outcome.failure tmplA initialState).1.hasError = true ∧
    (onAdd Outcome.failure tmplA initialState).1.isLoading = false := by
  refine ⟨rfl, rfl⟩

/-- Claim C3 (amended): when an Add (`createMetadata`) operation fails,
the store transitions to `hasError = true` and the failure path also
clears `isLoading` back to `false` (the shared `errorCallback` sets
`{ isLoading: false, hasError: true }`). -/
theorem C3_claim (template : MetadataEditorTemplate) (s : State) :
    (onAdd Outcome.failure template s).1.hasError = true ∧
    (onAdd Outcome.failure template s).1.isLoading = false := by
  refine ⟨rfl, rfl⟩

/-- Claim C4: when the initial `getEditors` call fails at the mount state,
`errorCallback` yields `isLoading = false`, `hasError = true`, and for any
file the View Projector shows the error banner exclusively: no loading
indicator, no editor list (and no empty state or template dropdown). -/
theorem C4_claim : ∀ file : BoxItem,
    (errorCallback initialState).isLoading = false ∧
    (errorCallback initialState).hasError = true ∧
    (render file (errorCallback initialState)).showError = true ∧
    (render file (errorCallback initialState)).showLoadingIndicator = false ∧
    (render file (errorCallback initialState)).showEditor = false ∧
    (render file (errorCallback initialState)).showInstances = false ∧
    (render file (errorCallback initialState)).showEmptyContent = false ∧
    (render file (errorCallback initialState)).showTemplateDropdown = false :=
  fun _ => ⟨rfl, rfl, rfl, rfl, rfl, rfl, rfl, rfl⟩

/-- Claim C5: when `getEditor` resolves nothing for `id`, `onSave` is a
silent no-op for every outcome and patch payload: the whole store state is
returned unchanged and no API request is issued. -/
theorem C5_claim (outcome : Outcome MetadataEditor) (id : String)
    (ops : JsonPatchData) (s : State) (h : getEditor id s = none) :
    onSave outcome id ops s = (s, none) := by
  unfold onSave
  rw [h]

/-- A settled store holding only `edOne`, with template `tmplA`. -/
def stateWithEdOne : State :=
  { editors := some [edOne], templates := some [tmplA],
    isLoading := false, hasError := false }

/-- Claim C5, witness: saving id `"9"`, absent from a store holding only
`edOne`, changes nothing and issues no request. -/
theorem C5_witness :
    getEditor "9" stateWithEdOne = none ∧
    onSave Outcome.failure "9" [] stateWithEdOne = (stateWithEdOne, none) :=
  ⟨by decide, C5_claim Outcome.failure "9" [] stateWithEdOne (by decide)⟩

/-- Claim C6: `replaceOne oldEditor newEditor` with `oldEditor` present
replaces exactly the (first) matching entry with `newEditor` at the same
position, preserving order and leaving the prefix and suffix of the list
unchanged. -/
theorem C6_claim (l : List MetadataEditor)
    (oldEditor newEditor : MetadataEditor) (h : oldEditor ∈ l) :
    ∃ i, ∃ hi : i < l.length, l.get ⟨i, hi⟩ = oldEditor ∧
      (∀ j, ∀ hj : j < l.length, j < i → l.get ⟨j, hj⟩ ≠ oldEditor) ∧
      EditorStore.replaceOne oldEditor newEditor l =
        l.take i ++ newEditor :: l.drop (i + 1) := by
  obtain ⟨i, hi, hget, hmin, heq⟩ :=
    replaceOne_mem_eq_set oldEditor newEditor l h
  refine ⟨i, hi, hget, hmin, ?_⟩
  rw [heq, List.set_eq_take_append_cons_drop, if_pos hi]

/-- Claim C6, witness: replacing `edTwo` by `edTwoDirty` inside
`[edOne, edTwo]`. -/
theorem C6_witness :
    ∃ i, ∃ hi : i < ([edOne, edTwo] : List MetadataEditor).length,
      ([edOne, edTwo] : List MetadataEditor).get ⟨i, hi⟩ = edTwo ∧
      (∀ j, ∀ hj : j < ([edOne, edTwo] : List MetadataEditor).length,
        j < i → ([edOne, edTwo] : List MetadataEditor).get ⟨j, hj⟩ ≠ edTwo) ∧
      EditorStore.replaceOne edTwo edTwoDirty [edOne, edTwo] =
        ([edOne, edTwo] : List MetadataEditor).take i ++
          edTwoDirty :: ([edOne, edTwo] : List MetadataEditor).drop (i + 1) :=
  C6_claim [edOne, edTwo] edTwo edTwoDirty (by decide)

/-- A file whose `permissions.can_upload` is `true`. -/
def fileCanUpload : BoxItem :=
  { permissions := some { can_upload := some true } }

/-- A settled store with no editors and one template. -/
def stateEmptyEditors : State :=
  { editors := some [], templates := some [tmplA],
    isLoading := false, hasError := false }

/-- Claim C7: for `editors = []`, `templates = [tmplA]`,
`isLoading = false`, `hasError = false` and an editable file, the View
Projector selects the empty-state-with-add view: empty content with the
add affordance, no loading indicator, no populated editor list. -/
theorem C7_claim :
    (render fileCanUpload stateEmptyEditors).showEmptyContent = true ∧
    (render fileCanUpload stateEmptyEditors).emptyContentCanAdd = true ∧
    (render fileCanUpload stateEmptyEditors).showLoadingIndicator = false ∧
    (render fileCanUpload stateEmptyEditors).showInstances = false ∧
    (render fileCanUpload stateEmptyEditors).showEditor = true := by
  refine ⟨rfl, rfl, rfl, rfl, rfl⟩

/-- A settled store with one editor and an empty templates list. -/
def stateEmptyTemplates : State :=
  { editors := some [edOne], templates := some [],
    isLoading := false, hasError := false }

/-- Claim C8, counterexample: the claim says the template dropdown is not
shown when the templates list is empty, but with `templates = some []`
(defined but empty), a defined editors list and an editable file the code
renders the dropdown (`showEditor` only tests definedness, and a defined
empty array is truthy in JS). -/
theorem C8_counterexample :
    stateEmptyTemplates.templates = some [] ∧
    canEdit fileCanUpload = true ∧
    (render fileCanUpload stateEmptyTemplates).showTemplateDropdown = true := by
  refine ⟨rfl, rfl, rfl⟩

/-- Claim C8 (amended): the template dropdown is rendered if and only if
the templates list is defined, the editors list is defined, and the user
has upload permission; an empty-but-defined templates list still renders
the dropdown, but with its `hasTemplates` prop false — `hasTemplates` is
true exactly when the templates list is defined and non-empty. -/
theorem C8_claim (file : BoxItem) (s : State) :
    ((render file s).showTemplateDropdown = true ↔
      (s.templates.isSome = true ∧ s.editors.isSome = true ∧
        canEdit file = true)) ∧
    ((render file s).hasTemplates = true ↔
      ∃ ts, s.templates = some ts ∧ ts ≠ []) := by
  constructor
  · simp [render, Bool.and_eq_true, and_assoc]
  · cases hts : s.templates with
    | none => simp [render, hts]
    | some ts =>
      simp [render, hts, bne_iff_ne, Ne, List.length_eq_zero]

/-- Claim C10: `canEdit` is true exactly when the file record has a
permissions object whose `can_upload` is `true`; an absent permissions
object or absent `can_upload` yields false (never a failure). -/
theorem C10_claim (file : BoxItem) :
    canEdit file = true ↔
      ∃ p, file.permissions = some p ∧ p.can_upload = some true := by
  unfold canEdit
  cases hp : file.permissions with
  | none => simp
  | some p =>
    cases hc : p.can_upload with
    | none => simp [hc]
    | some b => cases b <;> simp [hc]

/-- `getD` at an in-range index is `get`. -/
theorem getD_eq_get (l : List α) (i : Nat) (d : α) (hi : i < l.length) :
    l.getD i d = l.get ⟨i, hi⟩ := by
  rw [List.getD_eq_getElem?_getD, List.getElem?_eq_getElem hi]
  rfl

/-- Zeta-reduced unfolding of `onModification`. -/
theorem onModification_eq (id : String) (d : Bool) (s : State) :
    onModification id d s =
      if (jsFindIndex (fun e => e.«instance».id == id) (s.editors.getD [])
          == -1) = true
      then (s, none)
      else
        ({ s with editors := some (spliceReplace1 (s.editors.getD [])
            (jsFindIndex (fun e => e.«instance».id == id) (s.editors.getD []))
            { (s.editors.getD []).getD (jsFindIndex (fun e =>
                e.«instance».id == id) (s.editors.getD [])).toNat default with
              isDirty := d }) }, none) := rfl

/-- Claim C9: the dirty-toggle `onModification` issues no API request;
it is a no-op when no editor carries the id, and otherwise only replaces
the first id-matching editor by a copy whose `isDirty` is the new flag,
leaving that editor's other fields, every other editor, and every other
state field unchanged. -/
theorem C9_claim (id : String) (d : Bool) (s : State) :
    (onModification id d s).2 = none ∧
    ((∀ e ∈ s.editors.getD [], e.«instance».id ≠ id) →
      onModification id d s = (s, none)) ∧
    ((∃ e ∈ s.editors.getD [], e.«instance».id = id) →
      ∃ i, ∃ hi : i < (s.editors.getD []).length,
        ((s.editors.getD []).get ⟨i, hi⟩).«instance».id = id ∧
        (∀ j, ∀ hj : j < (s.editors.getD []).length, j < i →
          ((s.editors.getD []).get ⟨j, hj⟩).«instance».id ≠ id) ∧
        onModification id d s =
          ({ s with editors := some ((s.editors.getD []).set i
              { (s.editors.getD []).get ⟨i, hi⟩ with isDirty := d }) },
            none)) := by
  rcases jsFindIndex_cases (fun e => e.«instance».id == id) (s.editors.getD [])
    with ⟨hneg, hall⟩ | ⟨i, hi, heq, hp, hmin⟩
  · have h1 : onModification id d s = (s, none) := by
      rw [onModification_eq, hneg]
      rfl
    refine ⟨by rw [h1], fun _ => h1, ?_⟩
    rintro ⟨e, he, heid⟩
    have := hall e he
    rw [heid] at this
    simp at this
  · have hne : (((i : Int)) == -1) = false := by
      rw [beq_eq_false_iff_ne]
      omega
    have h2 : onModification id d s =
        ({ s with editors := some ((s.editors.getD []).set i
            { (s.editors.getD []).get ⟨i, hi⟩ with isDirty := d }) },
          none) := by
      rw [onModification_eq, heq, hne]
      have htoNat : ((i : Int)).toNat = i := by omega
      rw [if_neg (by simp)]
      rw [htoNat, getD_eq_get (s.editors.getD []) i default hi,
        spliceReplace1_eq_set (s.editors.getD []) i hi]
    refine ⟨by rw [h2], ?_, ?_⟩
    · intro hall'
      exact absurd (beq_iff_eq.mp hp)
        (hall' _ (List.get_mem (s.editors.getD []) i hi))
    · intro _
      refine ⟨i, hi, beq_iff_eq.mp hp, ?_, h2⟩
      intro j hj hjlt
      have := hmin j hj hjlt
      intro hid
      rw [hid] at this
      simp at this

/-- Claim C9, witness: toggling `isDirty` on id `"1"` in a store holding
only `edOne` (whose `isDirty` is false) rewrites exactly that editor. -/
theorem C9_witness :
    ∃ i, ∃ hi : i < (stateWithEdOne.editors.getD []).length,
      ((stateWithEdOne.editors.getD []).get ⟨i, hi⟩).«instance».id = "1" ∧
      (∀ j, ∀ hj : j < (stateWithEdOne.editors.getD []).length, j < i →
        ((stateWithEdOne.editors.getD []).get ⟨j, hj⟩).«instance».id ≠ "1") ∧
      onModification "1" true stateWithEdOne =
        ({ stateWithEdOne with
            editors := some ((stateWithEdOne.editors.getD []).set i
              { (stateWithEdOne.editors.getD []).get ⟨i, hi⟩ with
                  isDirty := true }) },
          none) :=
  (C9_claim "1" true stateWithEdOne).2.2 ⟨edOne, by decide, rfl⟩

/-! ### Connection of the component handlers to the store-level operations -/

/-- The add-success handler performs exactly the store `insert`. -/
theorem onAddSuccessHandler_eq_insert (editor : MetadataEditor) (s : State) :
    onAddSuccessHandler editor s =
      { s with editors := some (EditorStore.insert editor (s.editors.getD [])),
               isLoading := false } := rfl

/-- A remove whose API call succeeds performs exactly the store
`removeById` on the editors list. -/
theorem onRemove_success_eq_removeById (id : String) (s : State)
    (e : MetadataEditor) (h : getEditor id s = some e) :
    (onRemove (Outcome.success ()) id s).1 =
      { s with editors := some (EditorStore.removeById id
          (s.editors.getD [])) } := by
  unfold onRemove
  rw [h]
  show onRemoveSuccessHandler e s = _
  unfold onRemoveSuccessHandler EditorStore.removeById
  have hfind : (s.editors.getD []).find? (fun x => x.«instance».id == id) =
      some e := h
  rw [hfind]

/-- A save whose API call succeeds performs exactly the store
`replaceOne` on the editors list. -/
theorem onSave_success_eq_replaceOne (id : String) (ops : JsonPatchData)
    (s : State) (oldEditor newEditor : MetadataEditor)
    (h : getEditor id s = some oldEditor) :
    (onSave (Outcome.success newEditor) id ops s).1 =
      { s with editors := some (EditorStore.replaceOne oldEditor newEditor
          (s.editors.getD [])) } := by
  unfold onSave
  rw [h]
  show onSaveSuccessHandler oldEditor newEditor s = _
  unfold onSaveSuccessHandler EditorStore.replaceOne
  rfl
